import Mathlib

/-!
Verification development for the minirpc repository.

The Go source is shallowly embedded: each Go function used by a property is
translated into an executable Lean definition over explicit state.  Machine
integers are modelled as `Nat` (with an explicit `% 2 ^ 32` where the source
converts to `uint32`), Go maps as association lists whose iteration order is
irrelevant to every stated property, `error` values as their message strings,
and fallible or aborting code as `Option` / `Except` results.
-/

namespace MiniRpc

/-- Association-list lookup, modelling a read of a Go map. -/
def alookup {α β : Type} [DecidableEq α] : List (α × β) → α → Option β
  | [], _ => none
  | p :: rest, k => if p.1 = k then some p.2 else alookup rest k

/-- The key set of a Go map modelled as an association list. -/
def akeys {α β : Type} (l : List (α × β)) : List α := l.map Prod.fst

/-- Go map assignment `m[k] = v`: replaces any entry for `k`, else adds one. -/
def mapInsert {α β : Type} [DecidableEq α] (l : List (α × β)) (k : α) (v : β) :
    List (α × β) :=
  (k, v) :: l.filter (fun p => p.1 != k)

/-- Go map `delete(m, k)`. -/
def mapErase {α β : Type} [DecidableEq α] (l : List (α × β)) (k : α) :
    List (α × β) :=
  l.filter (fun p => p.1 != k)

theorem alookup_mapInsert_self {α β : Type} [DecidableEq α] (l : List (α × β))
    (k : α) (v : β) : alookup (mapInsert l k v) k = some v := by
  simp [mapInsert, alookup]

theorem alookup_filter_ne {α β : Type} [DecidableEq α] (l : List (α × β))
    (k k2 : α) (h : k2 ≠ k) :
    alookup (l.filter (fun p => p.1 != k)) k2 = alookup l k2 := by
  induction l with
  | nil => rfl
  | cons p rest ih =>
    by_cases hp : p.1 = k
    · simp [alookup, hp, Ne.symm h, ih]
    · simp only [List.filter_cons]
      rw [show (p.1 != k) = true by simpa using hp]
      by_cases hk2 : p.1 = k2
      · simp [alookup, hk2]
      · simp [alookup, hk2, ih]

theorem alookup_mapInsert_ne {α β : Type} [DecidableEq α] (l : List (α × β))
    (k k2 : α) (v : β) (h : k2 ≠ k) :
    alookup (mapInsert l k v) k2 = alookup l k2 := by
  simp only [mapInsert, alookup, if_neg (Ne.symm h)]
  exact alookup_filter_ne l k k2 h

theorem akeys_mapInsert_mem {α β : Type} [DecidableEq α] (l : List (α × β))
    (k a : α) (v : β) : a ∈ akeys (mapInsert l k v) ↔ a = k ∨ a ∈ akeys l := by
  constructor
  · intro h
    rcases List.mem_map.mp h with ⟨p, hp, hpa⟩
    rcases List.mem_cons.mp hp with h1 | h1
    · left; rw [← hpa, h1]
    · right
      exact List.mem_map.mpr ⟨p, (List.mem_filter.mp h1).1, hpa⟩
  · intro h
    rcases h with h | h
    · exact List.mem_map.mpr ⟨(k, v), List.mem_cons_self _ _, h.symm⟩
    · rcases List.mem_map.mp h with ⟨p, hp, hpa⟩
      by_cases hk : p.1 = k
      · exact List.mem_map.mpr ⟨(k, v), List.mem_cons_self _ _, by rw [← hpa, hk]⟩
      · refine List.mem_map.mpr ⟨p, List.mem_cons_of_mem _ ?_, hpa⟩
        exact List.mem_filter.mpr ⟨hp, by simpa using hk⟩

theorem alookup_isSome_iff_mem_akeys {α β : Type} [DecidableEq α]
    (l : List (α × β)) (k : α) : (alookup l k).isSome = true ↔ k ∈ akeys l := by
  induction l with
  | nil => simp [alookup, akeys]
  | cons p rest ih =>
    by_cases hp : p.1 = k
    · simp [alookup, akeys, hp]
    · simp [alookup, akeys, hp, ih, Ne.symm hp]

/-! ## Discovery (`src/xclient/discovery.go`)

`MultiDiscovery` holds a mutable server list and the round-robin cursor
`index`.  The mutex serialises the operations, so the state machine below
processes one operation at a time. -/

structure MultiDiscovery where
  serverList : List String
  index : Nat
deriving DecidableEq, Repr

def NewMultiDiscovery (serverList : List String) : MultiDiscovery :=
  { serverList := serverList, index := 0 }

/-- `MultiDiscovery.Update`: replaces the server list; `index` is untouched. -/
def MultiDiscovery.Update (d : MultiDiscovery) (serverList : List String) :
    MultiDiscovery :=
  { d with serverList := serverList }

/-- `MultiDiscovery.getRoundRobin`: reads `serverList[d.index]` after storing
`(d.index + 1) % len(serverList)` into `index`.  A Go index out of range
panics; that abort is modelled as `none`. -/
def MultiDiscovery.getRoundRobin (d : MultiDiscovery) :
    Option (String × MultiDiscovery) :=
  if d.serverList.length = 0 then some ("", d)
  else
    match d.serverList.get? d.index with
    | some s => some (s, { d with index := (d.index + 1) % d.serverList.length })
    | none => none

/-- `MultiDiscovery.Get` in mode `SelectMode_RoundRobin`: an empty list yields
the `no avaliable server` error, otherwise `getRoundRobin` runs. -/
def MultiDiscovery.GetRR (d : MultiDiscovery) :
    Option (Except String (String × MultiDiscovery)) :=
  if d.serverList.length = 0 then some (Except.error "no avaliable server")
  else (d.getRoundRobin).map Except.ok

/-- Modelled from the spec sentence of C8 (for refutation): a monotonic index,
never wrapped, with `Get` returning the element at `index % length` and
advancing the index by one. -/
def rrSpecGet (d : MultiDiscovery) : Option (String × MultiDiscovery) :=
  if d.serverList.length = 0 then none
  else some (d.serverList.getD (d.index % d.serverList.length) "",
             { d with index := d.index + 1 })

/-! ## Registry (`src/unnamed/part_003`, package `registry`)

Time is modelled as a `Nat` supplied at each operation; `time.Since(start)` at
time `now` is `now - start`. -/

structure ServerItem where
  Addr : String
  start : Nat
deriving DecidableEq, Repr

structure MiniRegistry where
  timeout : Nat
  servers : List (String × ServerItem)
deriving DecidableEq, Repr

def MiniRegistry.New (timeout : Nat) : MiniRegistry :=
  { timeout := timeout, servers := [] }

/-- `MiniRegistry.PutServer` at time `now`: inserts or refreshes the entry. -/
def MiniRegistry.PutServer (r : MiniRegistry) (addr : String) (now : Nat) :
    MiniRegistry :=
  { r with servers := mapInsert r.servers addr { Addr := addr, start := now } }

/-- `MiniRegistry.aliveServers` at time `now`: collects every address whose
entry satisfies `timeout == 0 || time.Since(start) < timeout` and deletes the
others from the map.  Go map iteration order is arbitrary; the list order here
is one admissible order and every property stated below uses membership only. -/
def MiniRegistry.aliveServers (r : MiniRegistry) (now : Nat) :
    List String × MiniRegistry :=
  let keep := r.servers.filter
    (fun p => (r.timeout == 0) || decide (now - p.2.start < r.timeout))
  (keep.map Prod.fst, { r with servers := keep })

/-- One external operation on a registry: a heartbeat `POST` (`PutServer`) or
a discovery `GET` (which reads and prunes via `aliveServers`). -/
inductive RegOp where
  | put (addr : String) (now : Nat)
  | get (now : Nat)
deriving DecidableEq, Repr

def applyRegOp (r : MiniRegistry) (op : RegOp) : MiniRegistry :=
  match op with
  | .put addr now => r.PutServer addr now
  | .get now => (r.aliveServers now).2

def runRegistry (r : MiniRegistry) (ops : List RegOp) : MiniRegistry :=
  ops.foldl applyRegOp r

theorem aliveServers_timeout_zero (r : MiniRegistry) (now : Nat)
    (h : r.timeout = 0) :
    r.aliveServers now = (akeys r.servers, r) := by
  cases r with
  | mk tmo sv =>
    simp only at h
    subst h
    have hf : sv.filter (fun p => ((0 : Nat) == 0) || decide (now - p.2.start < 0)) = sv :=
      List.filter_eq_self.mpr (fun p _ => by simp)
    simp [MiniRegistry.aliveServers, hf, akeys]

theorem applyRegOp_timeout (r : MiniRegistry) (op : RegOp) :
    (applyRegOp r op).timeout = r.timeout := by
  cases op <;> rfl

theorem runRegistry_timeout (ops : List RegOp) (r : MiniRegistry) :
    (runRegistry r ops).timeout = r.timeout := by
  induction ops generalizing r with
  | nil => rfl
  | cons op rest ih =>
    rw [runRegistry, List.foldl_cons]
    exact (ih (applyRegOp r op)).trans (applyRegOp_timeout r op)

theorem akeys_applyRegOp_mono (r : MiniRegistry) (op : RegOp) (a : String)
    (h0 : r.timeout = 0) (h : a ∈ akeys r.servers) :
    a ∈ akeys (applyRegOp r op).servers := by
  cases op with
  | put addr now =>
    simp only [applyRegOp, MiniRegistry.PutServer]
    exact (akeys_mapInsert_mem _ _ _ _).mpr (Or.inr h)
  | get now =>
    simp [applyRegOp, aliveServers_timeout_zero r now h0, h]

theorem runRegistry_mem (ops : List RegOp) (r : MiniRegistry) (addr : String)
    (t : Nat) (h0 : r.timeout = 0)
    (h : RegOp.put addr t ∈ ops ∨ addr ∈ akeys r.servers) :
    addr ∈ akeys (runRegistry r ops).servers := by
  induction ops generalizing r with
  | nil =>
    rcases h with h | h
    · exact absurd h (List.not_mem_nil _)
    · exact h
  | cons op rest ih =>
    rw [runRegistry, List.foldl_cons]
    have h0' : (applyRegOp r op).timeout = 0 := by
      rw [applyRegOp_timeout]; exact h0
    rcases h with h | h
    · rcases List.mem_cons.mp h with h1 | h1
      · refine ih (applyRegOp r op) h0' (Or.inr ?_)
        rw [← h1]
        simp only [applyRegOp, MiniRegistry.PutServer]
        exact (akeys_mapInsert_mem _ _ _ _).mpr (Or.inl rfl)
      · exact ih (applyRegOp r op) h0' (Or.inl h1)
    · exact ih (applyRegOp r op) h0' (Or.inr (akeys_applyRegOp_mono r op addr h0 h))

/-- C8 counterexample: starting from server list `["a"]`, one `Get(RoundRobin)`
followed by `Update ["a", "b"]` and a second `Get` returns `"a"` again, because
`getRoundRobin` wraps the stored index modulo the length at write time
(`(0+1) % 1 = 0`).  The claimed behaviour (monotonic index, taken modulo the
current length only when reading, advanced by one) returns `"b"` on the same
operation sequence, so the claim is false on this input. -/
theorem C8_counterexample :
    (NewMultiDiscovery ["a"]).GetRR
        = some (Except.ok ("a", { serverList := ["a"], index := 0 })) ∧
    rrSpecGet (NewMultiDiscovery ["a"])
        = some ("a", { serverList := ["a"], index := 1 }) ∧
    (MultiDiscovery.Update { serverList := ["a"], index := 0 } ["a", "b"]).GetRR
        = some (Except.ok ("a", { serverList := ["a", "b"], index := 1 })) ∧
    rrSpecGet (MultiDiscovery.Update { serverList := ["a"], index := 1 } ["a", "b"])
        = some ("b", { serverList := ["a", "b"], index := 2 }) ∧
    ("a" : String) ≠ "b" :=
  ⟨rfl, rfl, rfl, rfl, by decide⟩

/-- C8 (amended): whenever the stored index is within the current list,
`Get(RoundRobin)` returns the element at the stored index itself (not at a
monotonic counter reduced modulo the length) and stores `(index + 1) %% length`
back, wrapping at write time; `Update` replaces the list and does not reset
the index. -/
theorem C8_roundRobin (d : MultiDiscovery) (h : d.index < d.serverList.length) :
    d.GetRR = some (Except.ok (d.serverList.get ⟨d.index, h⟩,
        { d with index := (d.index + 1) % d.serverList.length })) ∧
    ∀ servers, (d.Update servers).index = d.index := by
  constructor
  · have hne : ¬ d.serverList.length = 0 := by omega
    simp [MultiDiscovery.GetRR, MultiDiscovery.getRoundRobin, hne,
      List.get?_eq_get h, List.getElem?_eq_getElem h]
  · intro servers; rfl

/-- Witness for C8_roundRobin at the concrete state `⟨["x", "y"], 1⟩`. -/
theorem C8_roundRobin_witness :
    (1 < 2) ∧ MultiDiscovery.GetRR { serverList := ["x", "y"], index := 1 }
      = some (Except.ok ("y", { serverList := ["x", "y"], index := 0 })) := by
  refine ⟨by decide, ?_⟩
  have h := (C8_roundRobin { serverList := ["x", "y"], index := 1 } (by decide)).1
  simpa using h

/-- C10: a registry constructed with timeout 0 never evicts: after any
sequence of heartbeat POSTs and pruning GETs, every address ever passed to
`PutServer` is in the alive-server list computed by `aliveServers` at every
later time. -/
theorem C10_registry_timeout_zero (ops : List RegOp) (addr : String)
    (t now : Nat) (h : RegOp.put addr t ∈ ops) :
    addr ∈ ((runRegistry (MiniRegistry.New 0) ops).aliveServers now).1 := by
  have h0 : (runRegistry (MiniRegistry.New 0) ops).timeout = 0 :=
    runRegistry_timeout ops _
  rw [aliveServers_timeout_zero _ now h0]
  exact runRegistry_mem ops _ addr t rfl (Or.inl h)

/-- Witness for C10_registry_timeout_zero: one registration at time 0 is still
listed by a GET at time 999. -/
theorem C10_registry_timeout_zero_witness :
    RegOp.put "s1" 0 ∈ [RegOp.put "s1" 0, RegOp.get 100] ∧
    "s1" ∈ ((runRegistry (MiniRegistry.New 0)
      [RegOp.put "s1" 0, RegOp.get 100]).aliveServers 999).1 :=
  ⟨by decide, C10_registry_timeout_zero _ "s1" 0 999 (by decide)⟩

/-! ## Service registry (`service.go` section of
`src/xclient/consistenthash/consistenthash.go`, and `src/server.go`)

Go reflection data is embedded structurally: a type is its name, package
path, and pointer-kind flag; a method is its name plus its `In` list
(receiver included at position 0, as `reflect.Type.Method` reports for
non-interface types) and its `Out` list. -/

structure GoType where
  name : String
  pkgPath : String
  isPtr : Bool
deriving DecidableEq, Repr

structure GoMethod where
  name : String
  inTypes : List GoType
  outTypes : List GoType
deriving DecidableEq, Repr

/-- `ast.IsExported`: the first character of the name is upper case.  (Go
uses `unicode.IsUpper` of the first rune; every name in this development is
ASCII, where `Char.isUpper` agrees.) -/
def isExportedName (s : String) : Bool :=
  match s.data with
  | [] => false
  | c :: _ => c.isUpper

/-- `reflect.TypeOf((*error)(nil)).Elem()`: name `error`, empty package path. -/
def errorType : GoType := { name := "error", pkgPath := "", isPtr := false }

/-- `isExportedOrBuiltinType`. -/
def isExportedOrBuiltinType (t : GoType) : Bool :=
  isExportedName t.name || t.pkgPath == ""

structure methodType where
  ArgType : GoType
  ReplyType : GoType
  numCalls : Nat
deriving DecidableEq, Repr

structure Service where
  name : String
  method : List (String × methodType)
deriving DecidableEq, Repr

/-- One iteration of the loop in `service.registerMethods`: the `continue`
chain that skips unexported names, methods without exactly 3 `In` types
(receiver plus two parameters) or exactly 1 `Out` type, a non-`error` result,
unexported non-builtin parameter types, and a non-pointer reply type. -/
def registerOne (acc : List (String × methodType)) (m : GoMethod) :
    List (String × methodType) :=
  if !(isExportedName m.name) then acc
  else
    match m.inTypes, m.outTypes with
    | [_, argType, replyType], [outType] =>
      if outType ≠ errorType then acc
      else if !(isExportedOrBuiltinType argType)
          || !(isExportedOrBuiltinType replyType) then acc
      else if !replyType.isPtr then acc
      else mapInsert acc m.name
        { ArgType := argType, ReplyType := replyType, numCalls := 0 }
    | _, _ => acc

/-- `service.registerMethods` over the receiver type's method list. -/
def registerMethods (ms : List GoMethod) : List (String × methodType) :=
  ms.foldl registerOne []

/-- The qualification rule exactly as the claim C6 states it: exported name;
exactly two non-receiver parameters; exactly one return value of the error
type; both parameter types built-in or exported; pointer-typed second
parameter. -/
def qualifiesSpec (m : GoMethod) : Prop :=
  isExportedName m.name = true ∧
  (∃ recvType argType replyType,
      m.inTypes = [recvType, argType, replyType] ∧
      isExportedOrBuiltinType argType = true ∧
      isExportedOrBuiltinType replyType = true ∧
      replyType.isPtr = true) ∧
  m.outTypes = [errorType]

/-- Boolean form of the qualification chain, used to characterise
`registerOne`. -/
def qualifiesB (m : GoMethod) : Bool :=
  isExportedName m.name &&
  (match m.inTypes, m.outTypes with
   | [_, argType, replyType], [outType] =>
     (outType == errorType) && isExportedOrBuiltinType argType &&
     isExportedOrBuiltinType replyType && replyType.isPtr
   | _, _ => false)

/-- The descriptor stored for a qualifying method. -/
def mTypeOf (m : GoMethod) : methodType :=
  match m.inTypes with
  | [_, argType, replyType] =>
    { ArgType := argType, ReplyType := replyType, numCalls := 0 }
  | _ => { ArgType := errorType, ReplyType := errorType, numCalls := 0 }

theorem registerOne_eq (acc : List (String × methodType)) (m : GoMethod) :
    registerOne acc m =
      if qualifiesB m then mapInsert acc m.name (mTypeOf m) else acc := by
  obtain ⟨mname, mins, mouts⟩ := m
  unfold registerOne qualifiesB mTypeOf
  by_cases hexp : isExportedName mname
  · simp only [hexp, Bool.not_true, Bool.false_eq_true, if_false, Bool.true_and]
    match mins, mouts with
    | [], _ | [_], _ | [_, _], _ | _ :: _ :: _ :: _ :: _, _ => simp
    | [r0, a0, p0], [] | [r0, a0, p0], _ :: _ :: _ => simp
    | [r0, a0, p0], [o0] =>
      simp only
      by_cases h1 : o0 = errorType
      · by_cases h2 : isExportedOrBuiltinType a0
        · by_cases h3 : isExportedOrBuiltinType p0
          · by_cases h4 : p0.isPtr <;> simp [h1, h2, h3, h4]
          · simp [h1, h2, h3]
        · simp [h1, h2]
      · simp [h1]
  · simp [hexp]

theorem qualifiesB_iff (m : GoMethod) :
    qualifiesB m = true ↔ qualifiesSpec m := by
  obtain ⟨mname, mins, mouts⟩ := m
  unfold qualifiesB qualifiesSpec
  match mins, mouts with
  | [], _ | [_], _ | [_, _], _ | _ :: _ :: _ :: _ :: _, _ => simp
  | [r0, a0, p0], [] | [r0, a0, p0], _ :: _ :: _ => simp
  | [r0, a0, p0], [o0] =>
    constructor
    · intro h
      simp only [Bool.and_eq_true, beq_iff_eq] at h
      obtain ⟨h1, ⟨⟨h2, h3⟩, h4⟩, h5⟩ := h
      exact ⟨h1, ⟨r0, a0, p0, rfl, h3, h4, h5⟩, by rw [h2]⟩
    · rintro ⟨h1, ⟨r1, a1, p1, heq, h3, h4, h5⟩, h2⟩
      injection heq with e1 t1
      injection t1 with e2 t2
      injection t2 with e3 _
      have h2e : o0 = errorType := by injection h2
      simp only [Bool.and_eq_true, beq_iff_eq]
      exact ⟨h1, ⟨⟨h2e, e2.symm ▸ h3⟩, e3.symm ▸ h4⟩, e3.symm ▸ h5⟩

theorem registerOne_akeys_mem (acc : List (String × methodType)) (m : GoMethod)
    (n : String) :
    n ∈ akeys (registerOne acc m) ↔
      (n ∈ akeys acc ∨ (m.name = n ∧ qualifiesSpec m)) := by
  rw [registerOne_eq]
  by_cases hq : qualifiesB m
  · rw [if_pos hq, akeys_mapInsert_mem]
    have hs := (qualifiesB_iff m).mp hq
    constructor
    · rintro (h | h)
      · exact Or.inr ⟨h.symm, hs⟩
      · exact Or.inl h
    · rintro (h | ⟨h, _⟩)
      · exact Or.inr h
      · exact Or.inl h.symm
  · rw [if_neg hq]
    constructor
    · exact Or.inl
    · rintro (h | ⟨_, h⟩)
      · exact h
      · exact absurd ((qualifiesB_iff m).mpr h) hq

theorem foldl_registerOne_akeys_mem (ms : List GoMethod)
    (acc : List (String × methodType)) (n : String) :
    n ∈ akeys (ms.foldl registerOne acc) ↔
      (n ∈ akeys acc ∨ ∃ m ∈ ms, m.name = n ∧ qualifiesSpec m) := by
  induction ms generalizing acc with
  | nil => simp
  | cons m rest ih =>
    rw [List.foldl_cons, ih, registerOne_akeys_mem]
    constructor
    · rintro ((h | h) | ⟨m1, hm1, hq⟩)
      · exact Or.inl h
      · exact Or.inr ⟨m, List.mem_cons_self _ _, h⟩
      · exact Or.inr ⟨m1, List.mem_cons_of_mem _ hm1, hq⟩
    · rintro (h | ⟨m1, hm1, hq⟩)
      · exact Or.inl (Or.inl h)
      · rcases List.mem_cons.mp hm1 with h1 | h1
        · exact Or.inl (Or.inr (h1 ▸ hq))
        · exact Or.inr ⟨m1, h1, hq⟩

/-- C6: the set of method names exposed by `registerMethods` is exactly the
set of method names satisfying the qualification rule of the claim: exported
name, exactly two non-receiver parameters, a single `error` result, built-in
or exported parameter types, and a pointer-typed second parameter. -/
theorem C6_registered_iff_qualifies (ms : List GoMethod) (n : String) :
    n ∈ akeys (registerMethods ms) ↔
      ∃ m ∈ ms, m.name = n ∧ qualifiesSpec m := by
  rw [registerMethods, foldl_registerOne_akeys_mem]
  simp [akeys]

/-- `newService`: the receiver's type name must be exported; on an unexported
name the source runs `logrus.Fatalf`, which terminates the process.  The
abort is modelled as `none`. -/
def newService (rcvrName : String) (ms : List GoMethod) : Option Service :=
  if !(isExportedName rcvrName) then none
  else some { name := rcvrName, method := registerMethods ms }

structure Server where
  serviceMap : List (String × Service)
deriving DecidableEq, Repr

/-- `Server.Register`: builds the service via `newService` (aborting on an
unexported type name), then `sync.Map.LoadOrStore`: an existing entry is
returned as a duplicate error with the map untouched, otherwise the new
service is stored. -/
def Server.Register (srv : Server) (rcvrName : String) (ms : List GoMethod) :
    Option (Except String Unit × Server) :=
  match newService rcvrName ms with
  | none => none
  | some svc =>
    match alookup srv.serviceMap svc.name with
    | some _ =>
      some (Except.error ("rpc: service already defined: " ++ svc.name), srv)
    | none =>
      some (Except.ok (),
        { srv with serviceMap := mapInsert srv.serviceMap svc.name svc })

def errIllFormed (s : String) : String :=
  "rpc: service/method request ill-formed: " ++ s

def errNoService (s : String) : String := "rpc: can't find service " ++ s

def errNoMethod (s : String) : String := "rpc: can't find method " ++ s

/-- Go `strings.Split(s, ".")` on the character list: splits around every
dot, keeping empty segments, and maps the empty string to `[""]`. -/
def splitDotData : List Char → List (List Char)
  | [] => [[]]
  | c :: rest =>
    let r := splitDotData rest
    if c = '.' then [] :: r
    else
      match r with
      | [] => [[c]]
      | h :: t => (c :: h) :: t

/-- Go `strings.Split(serviceMethod, ".")`. -/
def splitDot (s : String) : List String :=
  (splitDotData s.data).map (fun l => ⟨l⟩)

/-- Go `strings.Join(parts, ".")`, used only by the spec-side model below. -/
def joinDot : List String → String
  | [] => ""
  | [s] => s
  | s :: rest => s ++ "." ++ joinDot rest

/-- `Server.findService`: `strings.Split` on every `.` must give exactly two
parts, then the service and the method are looked up. -/
def Server.findService (srv : Server) (serviceMethod : String) :
    Except String (Service × methodType) :=
  let strs := splitDot serviceMethod
  if strs.length ≠ 2 then Except.error (errIllFormed serviceMethod)
  else
    let serviceName := strs.getD 0 ""
    let methodName := strs.getD 1 ""
    match alookup srv.serviceMap serviceName with
    | none => Except.error (errNoService serviceName)
    | some svc =>
      match alookup svc.method methodName with
      | none => Except.error (errNoMethod methodName)
      | some mtype => Except.ok (svc, mtype)

/-- Modelled from the spec sentence of C7, for refutation: the name is split
at the FIRST `.` only, everything after it being the method name. -/
def findServiceSpecModel (srv : Server) (serviceMethod : String) :
    Except String (Service × methodType) :=
  match splitDot serviceMethod with
  | [] => Except.error (errIllFormed serviceMethod)
  | [_] => Except.error (errIllFormed serviceMethod)
  | serviceName :: rest =>
    let methodName := joinDot rest
    match alookup srv.serviceMap serviceName with
    | none => Except.error (errNoService serviceName)
    | some svc =>
      match alookup svc.method methodName with
      | none => Except.error (errNoMethod methodName)
      | some mtype => Except.ok (svc, mtype)

/-- Two appended strings differ when their left parts differ at index `i`
before either left part ends. -/
theorem append_ne_of_get_ne (p1 p2 : String) (i : Nat)
    (h1 : i < p1.data.length) (h2 : i < p2.data.length)
    (hne : p1.data[i]? ≠ p2.data[i]?) (a b : String) :
    p1 ++ a ≠ p2 ++ b := by
  intro h
  have hd := congrArg String.data h
  rw [String.data_append, String.data_append] at hd
  have e1 : (p1.data ++ a.data)[i]? = p1.data[i]? :=
    List.getElem?_append_left h1
  have e2 : (p2.data ++ b.data)[i]? = p2.data[i]? :=
    List.getElem?_append_left h2
  exact hne (e1 ▸ e2 ▸ congrArg (fun l => l[i]?) hd)

theorem errIllFormed_ne_errNoService (a b : String) :
    errIllFormed a ≠ errNoService b :=
  append_ne_of_get_ne _ _ 5 (by decide) (by decide) (by decide) a b

theorem errIllFormed_ne_errNoMethod (a b : String) :
    errIllFormed a ≠ errNoMethod b :=
  append_ne_of_get_ne _ _ 5 (by decide) (by decide) (by decide) a b

theorem errNoService_ne_errNoMethod (a b : String) :
    errNoService a ≠ errNoMethod b :=
  append_ne_of_get_ne _ _ 16 (by decide) (by decide) (by decide) a b

/-- C5 counterexample: registering a receiver whose type name `foo` is
unexported does not return an error — `newService` hits `logrus.Fatalf` and
the process aborts (`none`), so `Register` never returns at all. -/
theorem C5_counterexample :
    Server.Register { serviceMap := [] } "foo" [] = none ∧
    isExportedName "foo" = false :=
  ⟨rfl, rfl⟩

/-- C5 (amended): `Register` of a fresh exported name stores the service;
an immediate second `Register` of the same name returns the duplicate-service
error and leaves the service map unchanged; an unexported type name aborts
the process via a fatal log instead of returning an error. -/
theorem C5_register (srv : Server) (rcvrName : String) (ms : List GoMethod)
    (hexp : isExportedName rcvrName = true)
    (habs : alookup srv.serviceMap rcvrName = none) :
    Server.Register srv rcvrName ms = some (Except.ok (),
      { serviceMap := mapInsert srv.serviceMap rcvrName
          { name := rcvrName, method := registerMethods ms } }) ∧
    Server.Register
        { serviceMap := mapInsert srv.serviceMap rcvrName
            { name := rcvrName, method := registerMethods ms } } rcvrName ms
      = some (Except.error ("rpc: service already defined: " ++ rcvrName),
          { serviceMap := mapInsert srv.serviceMap rcvrName
              { name := rcvrName, method := registerMethods ms } }) ∧
    ∀ nm2 ms2, isExportedName nm2 = false →
      Server.Register srv nm2 ms2 = none := by
  refine ⟨?_, ?_, ?_⟩
  · simp [Server.Register, newService, hexp, habs]
  · simp [Server.Register, newService, hexp, alookup_mapInsert_self]
  · intro nm2 ms2 h2
    simp [Server.Register, newService, h2]

/-- Witness for C5_register on the empty server and receiver name `Foo`. -/
theorem C5_register_witness :
    isExportedName "Foo" = true ∧
    Server.Register { serviceMap := [] } "Foo" [] = some (Except.ok (),
      { serviceMap := mapInsert [] "Foo" { name := "Foo", method := [] } }) ∧
    Server.Register
        { serviceMap := mapInsert [] "Foo" { name := "Foo", method := [] } }
        "Foo" []
      = some (Except.error "rpc: service already defined: Foo",
          { serviceMap := mapInsert [] "Foo" { name := "Foo", method := [] } }) := by
  have h := C5_register { serviceMap := [] } "Foo" [] (by decide) rfl
  exact ⟨by decide, h.1, by simpa using h.2.1⟩

/-- The method descriptor of the concrete `A.B` example service. -/
def mtB : methodType :=
  { ArgType := { name := "int", pkgPath := "", isPtr := false },
    ReplyType := { name := "", pkgPath := "", isPtr := true },
    numCalls := 0 }

/-- A concrete registered service `A` exposing one method `B`. -/
def svcA : Service := { name := "A", method := [("B", mtB)] }

/-- A concrete server holding only the service `A`. -/
def srvA : Server := { serviceMap := [("A", svcA)] }

/-- C7 counterexample: on a server that has service `A` with method `B`, the
input `A.B.C` is rejected as ill-formed because `strings.Split` yields three
parts; splitting on the first `.` as the claim states would instead look up
service `A` and fail with the distinct unknown-method error for `B.C`. -/
theorem C7_counterexample :
    Server.findService srvA "A.B.C" = Except.error (errIllFormed "A.B.C") ∧
    findServiceSpecModel srvA "A.B.C" = Except.error (errNoMethod "B.C") ∧
    errIllFormed "A.B.C" ≠ errNoMethod "B.C" :=
  ⟨rfl, rfl, errIllFormed_ne_errNoMethod "A.B.C" "B.C"⟩

/-- C7 (amended): `findService` requires the name to split on `.` into
exactly two parts (so a name with zero or two-or-more dots is ill-formed
rather than split at the first dot); with exactly one dot, an unknown
service and an unknown method produce their own errors, a registered pair
succeeds, and the three error messages are pairwise distinct for all
inputs. -/
theorem C7_findService (srv : Server) (s : String) :
    ((splitDot s).length ≠ 2 →
        srv.findService s = Except.error (errIllFormed s)) ∧
    (∀ sn mn, splitDot s = [sn, mn] →
        (alookup srv.serviceMap sn = none →
            srv.findService s = Except.error (errNoService sn)) ∧
        (∀ svc, alookup srv.serviceMap sn = some svc →
            (alookup svc.method mn = none →
                srv.findService s = Except.error (errNoMethod mn)) ∧
            (∀ mt, alookup svc.method mn = some mt →
                srv.findService s = Except.ok (svc, mt)))) ∧
    (∀ a b, errIllFormed a ≠ errNoService b) ∧
    (∀ a b, errIllFormed a ≠ errNoMethod b) ∧
    (∀ a b, errNoService a ≠ errNoMethod b) := by
  refine ⟨?_, ?_, errIllFormed_ne_errNoService, errIllFormed_ne_errNoMethod,
    errNoService_ne_errNoMethod⟩
  · intro h
    simp [Server.findService, h]
  · intro sn mn hsp
    have hlen : ¬ (splitDot s).length ≠ 2 := by rw [hsp]; simp
    refine ⟨?_, ?_⟩
    · intro habs
      simp [Server.findService, hsp, habs]
    · intro svc hsvc
      refine ⟨?_, ?_⟩
      · intro habs
        simp [Server.findService, hsp, hsvc, habs]
      · intro mt hmt
        simp [Server.findService, hsp, hsvc, hmt]

/-- Witness for C7_findService: both the ill-formed case (no dot) and the
successful lookup on the one-service server. -/
theorem C7_findService_witness :
    Server.findService { serviceMap := [] } "NoDotHere"
      = Except.error (errIllFormed "NoDotHere") ∧
    Server.findService srvA "A.B" = Except.ok (svcA, mtB) := by
  constructor
  · exact (C7_findService { serviceMap := [] } "NoDotHere").1 (by decide)
  · exact (((C7_findService srvA "A.B").2.1 "A" "B" (by decide)).2 svcA
      rfl).2 mtB rfl

/-! ## Client session (`src/unnamed/part_005`)

Call values and reply payloads are modelled as `Nat`; `error` values as their
message strings.  The `Done` channel of a call has capacity 1 and is only
ever written once per delivery, so a delivery is modelled by appending the
call to `completed`.  The two mutexes serialise the operations, so each Go
critical section becomes one atomic step on `Client`. -/

/-- `ErrClientShutdown = errors.New("client is shutdown")`. -/
def ErrClientShutdown : String := "client is shutdown"

structure RpcCall where
  seq : Nat
  serviceMethod : String
  reply : Option Nat
  err : Option String
deriving DecidableEq, Repr

structure Client where
  seq : Nat
  pending : List (Nat × RpcCall)
  closed : Bool
  shutdown : Bool
  completed : List RpcCall
  codecCloses : Nat
deriving DecidableEq, Repr

/-- `Client.avaliable` (source spelling): no shutdown, not closed. -/
def Client.avaliable (c : Client) : Bool := !c.shutdown && !c.closed

def Client.Avaliable (c : Client) : Bool := c.avaliable

/-- `Client.Close`: an already closed-or-shutdown client yields
`ErrClientShutdown` and the codec is not closed again; otherwise the client
is marked closed and the codec is closed. -/
def Client.Close (c : Client) : Client × Except String Unit :=
  if c.closed || c.shutdown then (c, Except.error ErrClientShutdown)
  else ({ c with closed := true, codecCloses := c.codecCloses + 1 },
        Except.ok ())

/-- `Client.registerCall`: refuses when not avaliable, else assigns the next
sequence number, stores the call in `pending` and bumps `seq`. -/
def Client.registerCall (c : Client) (call : RpcCall) :
    Client × Except String (Nat × RpcCall) :=
  if !c.avaliable then (c, Except.error ErrClientShutdown)
  else
    let seq := c.seq
    let call2 := { call with seq := seq }
    ({ c with pending := mapInsert c.pending seq call2, seq := c.seq + 1 },
     Except.ok (seq, call2))

/-- `Client.removeCall`: reads and deletes `pending[seq]`. -/
def Client.removeCall (c : Client) (seq : Nat) : Client × Option RpcCall :=
  ({ c with pending := mapErase c.pending seq },
   alookup c.pending seq)

/-- `Client.terminateCalls`: marks the client shutdown and completes every
pending call with the given error.  The pending map is not cleared. -/
def Client.terminateCalls (c : Client) (e : String) : Client :=
  let newPending := c.pending.map (fun p => (p.1, { p.2 with err := some e }))
  { c with shutdown := true,
           pending := newPending,
           completed := c.completed ++ newPending.map Prod.snd }

/-- The wire header read by the receive loop. -/
structure WireHeader where
  ServiceMethod : String
  Seq : Nat
  Error : String
deriving DecidableEq, Repr

/-- One receive-loop iteration's input from the codec: either the header read
fails, or a header arrives together with the outcome of the body read that
the iteration will perform (`Except.error` with the read error's message, or
`Except.ok` with the decoded value). -/
inductive ReadEvent where
  | hdrErr
  | msg (h : WireHeader) (body : Except String Nat)
deriving Repr

/-- Why the receive loop stopped: the script ran out (the real loop would
block reading), the header read failed (the `return` inside the loop), or a
body read failed (the `for err == nil` condition). -/
inductive ExitCause where
  | blocked
  | hdrError
  | bodyError
deriving DecidableEq, Repr

/-- `Client.recieve` (source spelling): reads headers and bodies as scripted.
A header-read error executes the early `return`, skipping `terminateCalls`;
a body-read error leaves the loop through the `for err == nil` condition and
runs `terminateCalls(errors.New("recieve error"))`. -/
def Client.recieveLoop : Client → List ReadEvent → Client × ExitCause
  | c, [] => (c, ExitCause.blocked)
  | c, ReadEvent.hdrErr :: _ => (c, ExitCause.hdrError)
  | c, ReadEvent.msg h body :: rest =>
    let r := c.removeCall h.Seq
    let c1 := r.1
    match r.2 with
    | none =>
      match body with
      | Except.ok _ => Client.recieveLoop c1 rest
      | Except.error _ =>
        (c1.terminateCalls "recieve error", ExitCause.bodyError)
    | some call =>
      if h.Error ≠ "" then
        let call2 := { call with err := some h.Error }
        let c2 := { c1 with completed := c1.completed ++ [call2] }
        match body with
        | Except.ok _ => Client.recieveLoop c2 rest
        | Except.error _ =>
          (c2.terminateCalls "recieve error", ExitCause.bodyError)
      else
        match body with
        | Except.ok v =>
          let call2 := { call with reply := some v }
          Client.recieveLoop
            { c1 with completed := c1.completed ++ [call2] } rest
        | Except.error e =>
          let call2 := { call with err := some ("reading body " ++ e) }
          ({ c1 with completed := c1.completed ++ [call2] }.terminateCalls
              "recieve error",
           ExitCause.bodyError)

theorem terminateCalls_shutdown (c : Client) (e : String) :
    (c.terminateCalls e).shutdown = true := rfl

theorem terminateCalls_pending_err (c : Client) (e : String) :
    ∀ p ∈ (c.terminateCalls e).pending,
      p.2.err = some e ∧ p.2 ∈ (c.terminateCalls e).completed := by
  intro p hp
  constructor
  · have hp2 := hp
    unfold Client.terminateCalls at hp2
    simp only [List.mem_map] at hp2
    obtain ⟨q, _, hqe⟩ := hp2
    rw [← hqe]
  · have hp2 := hp
    unfold Client.terminateCalls at hp2 ⊢
    simp only [List.mem_map] at hp2
    simp only [List.mem_append, List.mem_map]
    exact Or.inr ⟨p, hp2, rfl⟩

theorem alookup_mapErase_self {α β : Type} [DecidableEq α] (l : List (α × β))
    (k : α) : alookup (mapErase l k) k = none := by
  induction l with
  | nil => rfl
  | cons p rest ih =>
    by_cases hp : p.1 = k
    · simpa [mapErase, List.filter_cons, hp] using ih
    · simp only [mapErase, List.filter_cons] at ih ⊢
      rw [show (p.1 != k) = true by simpa using hp]
      simpa [alookup, hp] using ih

/-- C2 (amended): whenever the receive loop exits because a BODY read
failed, `terminateCalls` has run: the client is marked abnormally shutdown
and every call still pending is completed with the fixed error
`recieve error` (not with the original read error); whenever the loop exits
because a HEADER read failed, the early `return` is taken and the shutdown
flag is left untouched (`terminateCalls` is not invoked). -/
theorem C2_recieve_terminate (c : Client) (script : List ReadEvent) :
    (((c.recieveLoop script).2 = ExitCause.bodyError →
        (c.recieveLoop script).1.shutdown = true ∧
        ∀ p ∈ (c.recieveLoop script).1.pending,
          p.2.err = some "recieve error" ∧
          p.2 ∈ (c.recieveLoop script).1.completed)) ∧
    ((c.recieveLoop script).2 = ExitCause.hdrError →
        (c.recieveLoop script).1.shutdown = c.shutdown) := by
  induction script generalizing c with
  | nil =>
    refine ⟨fun h => by simp [Client.recieveLoop] at h,
            fun h => by simp [Client.recieveLoop] at h⟩
  | cons e rest ih =>
    match e with
    | ReadEvent.hdrErr => exact ⟨fun h => by simp [Client.recieveLoop] at h,
        fun _ => rfl⟩
    | ReadEvent.msg h body =>
      match hbody : body with
      | Except.ok v =>
        unfold Client.recieveLoop
        rcases hrm : ((c.removeCall h.Seq).2) with _ | call
        · simp only [hrm]
          constructor
          · intro hex
            exact ((ih _).1 hex)
          · intro hex
            exact ((ih _).2 hex)
        · simp only [hrm]
          by_cases herr : h.Error ≠ ""
          · rw [if_pos herr]
            exact ⟨fun hex => (ih _).1 hex, fun hex => (ih _).2 hex⟩
          · rw [if_neg herr]
            exact ⟨fun hex => (ih _).1 hex, fun hex => (ih _).2 hex⟩
      | Except.error msg =>
        unfold Client.recieveLoop
        rcases hrm : ((c.removeCall h.Seq).2) with _ | call
        · simp only [hrm]
          exact ⟨fun _ => ⟨terminateCalls_shutdown _ _,
              terminateCalls_pending_err _ _⟩,
            fun hex => by simp at hex⟩
        · simp only [hrm]
          by_cases herr : h.Error ≠ ""
          · rw [if_pos herr]
            exact ⟨fun _ => ⟨terminateCalls_shutdown _ _,
                terminateCalls_pending_err _ _⟩,
              fun hex => by simp at hex⟩
          · rw [if_neg herr]
            exact ⟨fun _ => ⟨terminateCalls_shutdown _ _,
                terminateCalls_pending_err _ _⟩,
              fun hex => by simp at hex⟩

/-- A client with one pending call, used by the C2 theorems. -/
def clientC2 : Client :=
  { seq := 2,
    pending := [(1, { seq := 1, serviceMethod := "Foo.Sum",
                      reply := none, err := none })],
    closed := false, shutdown := false, completed := [], codecCloses := 0 }

/-- C2 counterexample: (a) a header-read error makes `recieve` return
without invoking `terminateCalls`: the client is not marked shutdown and
its pending call is never completed, contradicting the claim that every
read error terminates the pending calls; (b) when `terminateCalls` does run
(body-read error `EOF` on a discarded reply), the pending call is completed
with the fixed string `recieve error`, not with the read error `EOF`. -/
theorem C2_counterexample :
    Client.recieveLoop clientC2 [ReadEvent.hdrErr]
      = (clientC2, ExitCause.hdrError) ∧
    clientC2.shutdown = false ∧
    clientC2.completed = [] ∧
    clientC2.pending ≠ [] ∧
    (Client.recieveLoop clientC2
        [ReadEvent.msg { ServiceMethod := "x", Seq := 5, Error := "" }
          (Except.error "EOF")]).1.completed
      = [{ seq := 1, serviceMethod := "Foo.Sum", reply := none,
           err := some "recieve error" }] ∧
    ("recieve error" : String) ≠ "EOF" :=
  ⟨rfl, rfl, rfl, by decide, rfl, by decide⟩

/-- Witness for C2_recieve_terminate: a failing body read on a known call
marks the client shutdown. -/
theorem C2_recieve_terminate_witness :
    (Client.recieveLoop clientC2
        [ReadEvent.msg { ServiceMethod := "Foo.Sum", Seq := 1, Error := "" }
          (Except.error "boom")]).1.shutdown = true := by
  have h := (C2_recieve_terminate clientC2
    [ReadEvent.msg { ServiceMethod := "Foo.Sum", Seq := 1, Error := "" }
      (Except.error "boom")]).1
  exact (h rfl).1

/-- The error `Call` returns when the context wins the select; for an
already-cancelled context `ctx.Err()` prints `context canceled`. -/
def ctxTimeoutErr : String :=
  "rpc client: call timeout expect within context canceled"

/-- The order in which the `send` goroutine and the context branch of
`Call`'s select acquire the client lock. -/
inductive CancelRace where
  | sendFirst
  | cancelFirst
deriving DecidableEq, Repr

/-- `Client.send`: `registerCall`, then the codec write whose outcome is
`writeRes` (`none` = success); a register failure completes the call with
that error, a write failure removes the call and completes it. -/
def Client.send (c : Client) (call : RpcCall) (writeRes : Option String) :
    Client :=
  match c.registerCall call with
  | (c1, Except.error e) =>
    { c1 with completed := c1.completed ++ [{ call with err := some e }] }
  | (c1, Except.ok (seq, _)) =>
    match writeRes with
    | none => c1
    | some e =>
      let r := c1.removeCall seq
      match r.2 with
      | some call3 =>
        { r.1 with completed := r.1.completed ++
            [{ call3 with err := some e }] }
      | none => r.1

/-- `Client.Call` invoked with an already-cancelled context, with the codec
write succeeding.  `Go` spawns `send` while the select immediately takes the
context branch, which runs `removeCall(call.Seq)` and returns the timeout
error; `call.Seq` is 0 until `registerCall` has assigned it.  `order` fixes
which side runs first. -/
def Client.callCancelled (c : Client) (serviceMethod : String)
    (order : CancelRace) : Client × String :=
  let call : RpcCall :=
    { seq := 0, serviceMethod := serviceMethod, reply := none, err := none }
  match order with
  | CancelRace.sendFirst =>
    let c1 := c.send call none
    let seqRead := if c.avaliable then c.seq else 0
    ((c1.removeCall seqRead).1, ctxTimeoutErr)
  | CancelRace.cancelFirst =>
    let c1 := (c.removeCall 0).1
    (c1.send call none, ctxTimeoutErr)

theorem registerCall_ok (c : Client) (call : RpcCall)
    (h : c.avaliable = true) :
    c.registerCall call
      = ({ c with
           pending := mapInsert c.pending c.seq { call with seq := c.seq },
           seq := c.seq + 1 },
         Except.ok (c.seq, { call with seq := c.seq })) := by
  unfold Client.registerCall
  rw [h]
  rfl

theorem send_ok (c : Client) (call : RpcCall) (h : c.avaliable = true) :
    c.send call none
      = { c with
          pending := mapInsert c.pending c.seq { call with seq := c.seq },
          seq := c.seq + 1 } := by
  unfold Client.send
  rw [registerCall_ok c call h]

/-- A fresh, open client, used by the C3 theorems. -/
def clientC3 : Client :=
  { seq := 1, pending := [], closed := false, shutdown := false,
    completed := [], codecCloses := 0 }

/-- C3 counterexample: on a fresh client with an already-cancelled context,
when the context branch of the select runs before the `send` goroutine, the
branch removes sequence 0 (a no-op, since `call.Seq` is still its zero
value) and `send` then registers the call at sequence 1, so `Call` returns
with the call still present in the pending table, contradicting the claim
that the pending table ends without an entry for the call. -/
theorem C3_counterexample :
    (clientC3.callCancelled "Foo.Sum" CancelRace.cancelFirst).2
      = ctxTimeoutErr ∧
    alookup (clientC3.callCancelled "Foo.Sum"
        CancelRace.cancelFirst).1.pending 1
      = some { seq := 1, serviceMethod := "Foo.Sum", reply := none,
               err := none } ∧
    (clientC3.callCancelled "Foo.Sum" CancelRace.cancelFirst).1.pending.length
      = 1 :=
  ⟨rfl, rfl, rfl⟩

/-- C3 (amended): `Call` on an avaliable client with an already-cancelled
context returns the call-timeout error in either interleaving; if the
`send` goroutine registered the call before the cancellation branch ran,
the call is removed and the pending table ends without it, but if the
cancellation branch ran first its `removeCall(call.Seq)` removes sequence 0
(a no-op) and the entry that `send` registers afterwards remains in the
pending table. -/
theorem C3_call_cancelled (c : Client) (sm : String)
    (hav : c.avaliable = true) :
    ((c.callCancelled sm CancelRace.sendFirst).2 = ctxTimeoutErr ∧
     alookup (c.callCancelled sm CancelRace.sendFirst).1.pending c.seq
       = none) ∧
    ((c.callCancelled sm CancelRace.cancelFirst).2 = ctxTimeoutErr ∧
     alookup (c.callCancelled sm CancelRace.cancelFirst).1.pending c.seq
       = some { seq := c.seq, serviceMethod := sm, reply := none,
                err := none }) := by
  constructor
  · refine ⟨rfl, ?_⟩
    have e1 : (c.callCancelled sm CancelRace.sendFirst).1
        = ((c.send { seq := 0, serviceMethod := sm, reply := none, err := none } none).removeCall c.seq).1 := by
      simp [Client.callCancelled, hav]
    rw [e1, send_ok _ _ hav]
    exact alookup_mapErase_self _ _
  · refine ⟨rfl, ?_⟩
    have hav2 : ((c.removeCall 0).1).avaliable = true := hav
    have e2 : (c.callCancelled sm CancelRace.cancelFirst).1
        = (c.removeCall 0).1.send { seq := 0, serviceMethod := sm, reply := none, err := none } none := rfl
    rw [e2, send_ok _ _ hav2]
    exact alookup_mapInsert_self _ _ _

/-- Witness for C3_call_cancelled on the fresh client. -/
theorem C3_call_cancelled_witness :
    clientC3.avaliable = true ∧
    alookup (clientC3.callCancelled "Foo.Sum"
        CancelRace.sendFirst).1.pending 1 = none := by
  have h := C3_call_cancelled clientC3 "Foo.Sum" rfl
  exact ⟨rfl, h.1.2⟩

/-- C9: `Close` on an already closed-or-shutdown client returns
`ErrClientShutdown` and leaves the client (in particular the number of codec
closes) unchanged; the first successful `Close` closes the codec exactly
once and marks the client closed, after which `Avaliable()` is false,
`registerCall` rejects any call with `ErrClientShutdown`, and a second
`Close` returns `ErrClientShutdown` without closing the codec again. -/
theorem C9_close (c : Client) :
    ((c.closed || c.shutdown) = true →
        c.Close = (c, Except.error ErrClientShutdown)) ∧
    ((c.closed || c.shutdown) = false →
        ((c.Close).2 = Except.ok () ∧
         (c.Close).1.closed = true ∧
         (c.Close).1.codecCloses = c.codecCloses + 1 ∧
         (c.Close).1.Avaliable = false ∧
         (c.Close).1.Close
           = ((c.Close).1, Except.error ErrClientShutdown) ∧
         (∀ call : RpcCall,
            ((c.Close).1.registerCall call).1 = (c.Close).1 ∧
            ((c.Close).1.registerCall call).2
              = Except.error ErrClientShutdown))) := by
  constructor
  · intro h
    simp [Client.Close, h]
  · intro h
    have h1 : (c.Close).1 = { c with closed := true, codecCloses := c.codecCloses + 1 } := by
      simp [Client.Close, h]
    have h2 : (c.Close).2 = Except.ok () := by
      simp [Client.Close, h]
    refine ⟨h2, by rw [h1], by rw [h1], ?_, ?_, ?_⟩
    · rw [h1]
      simp [Client.Avaliable, Client.avaliable]
    · rw [h1]
      simp [Client.Close]
    · intro call
      rw [h1]
      constructor <;> simp [Client.registerCall, Client.avaliable]

/-- A fresh, open client, used by the C9 witness. -/
def clientC9 : Client :=
  { seq := 1, pending := [], closed := false, shutdown := false,
    completed := [], codecCloses := 0 }

/-- Witness for C9_close: closing a fresh open client succeeds and makes it
unavailable. -/
theorem C9_close_witness :
    ((clientC9.closed || clientC9.shutdown) = false) ∧
    (clientC9.Close).2 = Except.ok () ∧
    (clientC9.Close).1.Avaliable = false := by
  have h := (C9_close clientC9).2 rfl
  exact ⟨rfl, h.1, h.2.2.2.1⟩

/-! ## Fan-out client broadcast (`src/xclient/xclient.go`)

Each arm of `Broadcast` calls one server on a clone of the reply; the arm
outcome is the error or the value the server wrote into the clone.  The
`assignLock` mutex serialises the post-call section of the arms, so a run of
`Broadcast` is determined by the list of arm outcomes in lock-acquisition
order (one entry per discovered server; arms cut short by the cancelled
context contribute their error like any other failure).  The caller always
passes a non-nil reply, so `replyDone` starts false. -/

/-- The outcome of one broadcast arm's `c.call`. -/
abbrev ArmOutcome := Except String Nat

/-- The shared state guarded by `assignLock`, plus the cancel flag of the
shared child context. -/
structure BState where
  err : Option String
  replyDone : Bool
  reply : Option Nat
  cancelled : Bool
deriving DecidableEq, Repr

/-- The critical section each arm runs under `assignLock` after its call
returns: the first error is captured and cancels the shared context; the
first success copies its clone into the caller's reply. -/
def broadcastStep (st : BState) (o : ArmOutcome) : BState :=
  let st1 :=
    match o with
    | Except.error e =>
      if st.err = none then { st with err := some e, cancelled := true }
      else st
    | Except.ok _ => st
  match o with
  | Except.ok v =>
    if !st1.replyDone then { st1 with replyDone := true, reply := some v }
    else st1
  | Except.error _ => st1

/-- `XClient.Broadcast` as a function of the arm outcomes in
lock-acquisition order; `err` of the result is the returned error (`none` is
success), `reply` is what ends up in the caller's reply (`none` = never
written). -/
def broadcastRun (outs : List ArmOutcome) : BState :=
  outs.foldl broadcastStep
    { err := none, replyDone := false, reply := none, cancelled := false }

/-- The first error among the outcomes. -/
def firstError (outs : List ArmOutcome) : Option String :=
  outs.findSome? (fun o => match o with
    | Except.error e => some e
    | Except.ok _ => none)

/-- The first success value among the outcomes. -/
def firstOk (outs : List ArmOutcome) : Option Nat :=
  outs.findSome? (fun o => match o with
    | Except.ok v => some v
    | Except.error _ => none)

theorem broadcastStep_general (st : BState) (o : ArmOutcome) :
    (broadcastStep st o).err
      = (match st.err with
         | some e => some e
         | none => match o with
                   | Except.error e => some e
                   | Except.ok _ => none) ∧
    (broadcastStep st o).cancelled
      = (st.cancelled || (st.err == none &&
          match o with | Except.error _ => true | Except.ok _ => false)) ∧
    (broadcastStep st o).replyDone
      = (st.replyDone ||
          match o with | Except.ok _ => true | Except.error _ => false) ∧
    (broadcastStep st o).reply
      = (if st.replyDone then st.reply
         else match o with
              | Except.ok v => some v
              | Except.error _ => st.reply) := by
  obtain ⟨serr, sdone, srep, scan⟩ := st
  cases o with
  | ok v => cases serr <;> cases sdone <;> simp [broadcastStep]
  | error e => cases serr <;> cases sdone <;> simp [broadcastStep]

theorem broadcastRun_foldl (outs : List ArmOutcome) (st : BState) :
    (outs.foldl broadcastStep st).err
      = (match st.err with
         | some e => some e
         | none => firstError outs) ∧
    (outs.foldl broadcastStep st).cancelled
      = (st.cancelled || (st.err == none && (firstError outs).isSome)) ∧
    (outs.foldl broadcastStep st).replyDone
      = (st.replyDone || (firstOk outs).isSome) ∧
    (outs.foldl broadcastStep st).reply
      = (if st.replyDone then st.reply
         else match firstOk outs with
              | some v => some v
              | none => st.reply) := by
  induction outs generalizing st with
  | nil =>
    obtain ⟨serr, sdone, srep, scan⟩ := st
    cases serr <;> cases sdone <;> simp [firstError, firstOk]
  | cons o rest ih =>
    have hfe : firstError (o :: rest)
        = (match o with
           | Except.error e => some e
           | Except.ok _ => firstError rest) := by
      cases o <;> simp [firstError]
    have hfo : firstOk (o :: rest)
        = (match o with
           | Except.ok v => some v
           | Except.error _ => firstOk rest) := by
      cases o <;> simp [firstOk]
    obtain ⟨serr, sdone, srep, scan⟩ := st
    obtain ⟨g1, g2, g3, g4⟩ :=
      broadcastStep_general ⟨serr, sdone, srep, scan⟩ o
    obtain ⟨i1, i2, i3, i4⟩ :=
      ih (broadcastStep ⟨serr, sdone, srep, scan⟩ o)
    rw [List.foldl_cons]
    refine ⟨?_, ?_, ?_, ?_⟩
    · rw [i1, g1, hfe]
      cases serr <;> cases o <;> simp
    · rw [i2, g2, g1, hfe]
      cases serr <;> cases o <;> simp
    · rw [i3, g3, hfo]
      cases o <;> simp [Bool.or_assoc]
    · rw [i4, g4, g3, hfo]
      cases sdone <;> cases o <;> simp

/-- Whether an arm outcome is a success. -/
def armOk : ArmOutcome → Bool
  | Except.ok _ => true
  | Except.error _ => false

theorem firstError_eq_none_iff (outs : List ArmOutcome) :
    firstError outs = none ↔ ∀ o ∈ outs, armOk o = true := by
  induction outs with
  | nil => simp [firstError]
  | cons o rest ih =>
    cases o with
    | ok v => simp [firstError, armOk] at ih ⊢; exact ih
    | error e => simp [firstError, armOk]

theorem firstError_isSome_iff (outs : List ArmOutcome) :
    (firstError outs).isSome = true ↔ ∃ o ∈ outs, armOk o = false := by
  induction outs with
  | nil => simp [firstError]
  | cons o rest ih =>
    cases o with
    | ok v => simp [firstError, armOk] at ih ⊢; exact ih
    | error e => simp [firstError, armOk]

/-- C1 counterexample: with an empty discovered server list (`GetAll` on a
`MultiDiscovery` can return an empty slice with a nil error), `Broadcast`
spawns no arms, `wg.Wait` returns at once and the shared `err` is still nil,
so the call reports success although no arm succeeded — the claimed
biconditional `success iff (some arm succeeds and no arm fails)` is false on
the empty run. -/
theorem C1_counterexample :
    (broadcastRun []).err = none ∧
    ¬ (((broadcastRun []).err = none) ↔
        ((∃ o ∈ ([] : List ArmOutcome), armOk o = true) ∧
         (∀ o ∈ ([] : List ArmOutcome), armOk o = true))) := by
  refine ⟨rfl, ?_⟩
  intro h
  rcases (h.mp rfl).1 with ⟨o, ho, _⟩
  exact absurd ho (List.not_mem_nil o)

/-- C1 (amended): for every list of arm outcomes in lock-acquisition order,
`Broadcast` (i) succeeds iff every arm succeeded — in particular it also
succeeds on the empty server list where no arm ran, (ii) returns the first
error observed, (iii) cancels the shared child context exactly when some arm
failed, and (iv) copies the first successful arm's reply into the caller's
reply, discarding later successes; when at least one arm ran, success holds
iff at least one arm succeeds and no arm fails. -/
theorem C1_broadcast (outs : List ArmOutcome) :
    ((broadcastRun outs).err = none ↔ ∀ o ∈ outs, armOk o = true) ∧
    (broadcastRun outs).err = firstError outs ∧
    ((broadcastRun outs).cancelled = true ↔ ∃ o ∈ outs, armOk o = false) ∧
    (broadcastRun outs).reply = firstOk outs ∧
    (outs ≠ [] →
      ((broadcastRun outs).err = none ↔
        ((∃ o ∈ outs, armOk o = true) ∧ ∀ o ∈ outs, armOk o = true))) := by
  obtain ⟨f1, f2, f3, f4⟩ := broadcastRun_foldl outs
    { err := none, replyDone := false, reply := none, cancelled := false }
  have herr : (broadcastRun outs).err = firstError outs := by
    rw [broadcastRun, f1]
  have hcan : (broadcastRun outs).cancelled = (firstError outs).isSome := by
    rw [broadcastRun, f2]
    simp
  have hrep : (broadcastRun outs).reply = firstOk outs := by
    rw [broadcastRun, f4]
    simp only [Bool.false_eq_true, if_false]
    cases firstOk outs <;> rfl
  have hiff : (broadcastRun outs).err = none ↔ ∀ o ∈ outs, armOk o = true := by
    rw [herr]
    exact firstError_eq_none_iff outs
  refine ⟨hiff, herr, ?_, hrep, ?_⟩
  · rw [hcan]
    exact firstError_isSome_iff outs
  · intro hne
    rw [hiff]
    constructor
    · intro hall
      match outs, hne with
      | o :: rest, _ =>
        exact ⟨⟨o, List.mem_cons_self o rest, hall o (List.mem_cons_self o rest)⟩, hall⟩
    · exact And.right

/-- Witness for C1_broadcast on a concrete two-arm run: the first error is
returned and the success reply is still copied. -/
theorem C1_broadcast_witness :
    ([Except.error "boom", Except.ok 7] : List ArmOutcome) ≠ [] ∧
    (broadcastRun [Except.error "boom", Except.ok 7]).err = some "boom" ∧
    (broadcastRun [Except.error "boom", Except.ok 7]).reply = some 7 := by
  have h := C1_broadcast [Except.error "boom", Except.ok 7]
  refine ⟨List.cons_ne_nil _ _, ?_, ?_⟩
  · rw [h.2.1]; rfl
  · rw [h.2.2.2.1]; rfl

/-! ## Gob codec framing (`src/unnamed/part_001`)

`GobCodec.Write` frames each of header and body as a 4-byte big-endian
length (the Go `uint32` conversion truncates modulo `2 ^ 32`) followed by
the gob-encoded bytes, writes both through the `bufio` writer and flushes;
the write side delivers every byte, so the connection is modelled as the
written byte list.  The gob encoding itself is an external library and is
abstracted: `gobWrite` takes the already-encoded header and body bytes, and
the read side returns the exact byte frame that is handed to
`gob.NewDecoder(bytes.NewBuffer(raw)).Decode`, so a frame equal to the
encoded bytes decodes to the original value and a mangled frame does not
carry it.

The read side is the faithful part: `ReadHeader` and `ReadBody` read the
4-byte length with `binary.Read` (which uses `io.ReadFull`) and then issue
ONE `bufio.Reader.Read` into `make([]byte, length)`, ignoring the returned
count, so `raw` keeps its zero bytes past what that single read returned.
`bufio.NewReader` has a 4096-byte buffer; a `Read` with buffered bytes
returns only from the buffer, an empty buffer triggers one fill of up to
4096 bytes from the connection (or a direct read when the request is at
least the buffer size).  The connection model is generous: every written
byte is already available, so any shortfall below is forced by `bufio`
itself, not by network timing. -/

def bufSize : Nat := 4096

structure BufReader where
  buffered : List Nat
  rest : List Nat
deriving DecidableEq, Repr

def bufRead (st : BufReader) (n : Nat) : List Nat × BufReader :=
  if st.buffered.isEmpty then
    if bufSize ≤ n then
      ((st.rest.take n), ⟨[], st.rest.drop n⟩)
    else
      let fill := st.rest.take bufSize
      (fill.take n, ⟨fill.drop n, st.rest.drop bufSize⟩)
  else
    (st.buffered.take n, ⟨st.buffered.drop n, st.rest⟩)

def readFull : Nat → BufReader → Nat → Option (List Nat × BufReader)
  | _, st, 0 => some ([], st)
  | 0, _, _ + 1 => none
  | fuel + 1, st, n + 1 =>
    let r := bufRead st (n + 1)
    if r.1.length = 0 then none
    else if r.1.length < n + 1 then
      match readFull fuel r.2 (n + 1 - r.1.length) with
      | some (more, st2) => some (r.1 ++ more, st2)
      | none => none
    else some (r.1, r.2)

def be4 (n : Nat) : List Nat :=
  [n / 2 ^ 24 % 256, n / 2 ^ 16 % 256, n / 2 ^ 8 % 256, n % 256]

def de4 (l : List Nat) : Nat :=
  match l with
  | [a, b, c, d] => ((a * 256 + b) * 256 + c) * 256 + d
  | _ => 0

def gobWrite (encH encB : List Nat) : List Nat :=
  be4 (encH.length % 2 ^ 32) ++ encH ++ be4 (encB.length % 2 ^ 32) ++ encB

def readFrame (st : BufReader) : Option (List Nat × BufReader) :=
  match readFull 4 st 4 with
  | none => none
  | some (lenBytes, st2) =>
    let length := de4 lenBytes
    let r := bufRead st2 length
    some (r.1 ++ List.replicate (length - r.1.length) 0, r.2)

def readTwoFrames (stream : List Nat) : Option (List Nat × List Nat) :=
  match readFrame ⟨[], stream⟩ with
  | none => none
  | some (f1, st1) =>
    match readFrame st1 with
    | none => none
    | some (f2, _) => some (f1, f2)

theorem de4_be4 (n : Nat) (h : n < 2 ^ 32) : de4 (be4 n) = n := by
  simp only [be4, de4]
  omega

theorem length_be4 (n : Nat) : (be4 n).length = 4 := rfl

theorem bufRead_fill (rest : List Nat) (n : Nat) (hn : n < bufSize) :
    bufRead ⟨[], rest⟩ n
      = ((rest.take bufSize).take n,
         ⟨(rest.take bufSize).drop n, rest.drop bufSize⟩) := by
  simp [bufRead, Nat.not_le.mpr hn]

theorem bufRead_buffered (b rest : List Nat) (n : Nat) (hb : b ≠ []) :
    bufRead ⟨b, rest⟩ n = (b.take n, ⟨b.drop n, rest⟩) := by
  have hbe : b.isEmpty = false := by
    cases b with
    | nil => exact absurd rfl hb
    | cons x xs => rfl
  simp [bufRead, hbe]

theorem readFull_exact (fuel n : Nat) (st : BufReader)
    (h : (bufRead st (n + 1)).1.length = n + 1) :
    readFull (fuel + 1) st (n + 1)
      = some ((bufRead st (n + 1)).1, (bufRead st (n + 1)).2) := by
  have h0 : ¬ ((bufRead st (n + 1)).1.length = 0) := by omega
  have h1 : ¬ ((bufRead st (n + 1)).1.length < n + 1) := by omega
  simp only [readFull, h0, h1, if_false]

theorem readFrame_eq (st : BufReader) (lb : List Nat) (st2 : BufReader)
    (h : readFull 4 st 4 = some (lb, st2)) :
    readFrame st
      = some ((bufRead st2 (de4 lb)).1
            ++ List.replicate (de4 lb - (bufRead st2 (de4 lb)).1.length) 0,
          (bufRead st2 (de4 lb)).2) := by
  simp [readFrame, h]

theorem readTwoFrames_gobWrite_large (encH encB : List Nat)
    (hA : encH.length + 8 < bufSize)
    (hB : bufSize < encH.length + encB.length + 8)
    (hH : encH.length < 2 ^ 32) (hBn : encB.length < 2 ^ 32) :
    readTwoFrames (gobWrite encH encB)
      = some (encH,
          encB.take (bufSize - 8 - encH.length)
            ++ List.replicate
                (encB.length - (bufSize - 8 - encH.length)) 0) := by
  have hbs : bufSize = 4096 := rfl
  set h := encH.length with hh
  set b := encB.length with hbb
  have hS : gobWrite encH encB
      = be4 h ++ (encH ++ (be4 b ++ encB)) := by
    rw [gobWrite, Nat.mod_eq_of_lt hH, Nat.mod_eq_of_lt hBn,
      List.append_assoc, List.append_assoc]
  -- the first fill of the bufio buffer
  have hlenS : (be4 h ++ (encH ++ (be4 b ++ encB))).length = 8 + h + b := by
    simp [length_be4]
    omega
  -- step 1: the four header-length bytes
  have e1 : bufRead ⟨[], gobWrite encH encB⟩ 4
      = (((gobWrite encH encB).take bufSize).take 4,
         ⟨((gobWrite encH encB).take bufSize).drop 4,
          (gobWrite encH encB).drop bufSize⟩) :=
    bufRead_fill _ 4 (by omega)
  have e2 : ((gobWrite encH encB).take bufSize).take 4 = be4 h := by
    rw [List.take_take, hS]
    have : min 4 bufSize = 4 := by omega
    rw [this]
    rw [List.take_append_of_le_length (by rw [length_be4])]
    rw [show (4 : Nat) = (be4 h).length from (length_be4 h).symm, List.take_length]
  have e3 : ((gobWrite encH encB).take bufSize).drop 4
      = (encH ++ (be4 b ++ encB)).take (bufSize - 4) := by
    rw [List.drop_take, hS]
    congr 1
  have efull1 : readFull 4 ⟨[], gobWrite encH encB⟩ 4
      = some (be4 h, ⟨(encH ++ (be4 b ++ encB)).take (bufSize - 4),
          (gobWrite encH encB).drop bufSize⟩) := by
    have hx : (bufRead ⟨[], gobWrite encH encB⟩ 4).1.length = 4 := by
      rw [e1]
      simp only
      rw [e2, length_be4]
    have := readFull_exact 3 3 ⟨[], gobWrite encH encB⟩ hx
    rw [show (3 + 1 : Nat) = 4 from rfl] at this
    rw [this, e1]
    simp only
    rw [e2, e3]
  -- step 2: the header frame
  have hbuff1 : ((encH ++ (be4 b ++ encB)).take (bufSize - 4)) ≠ [] := by
    have hp : 0 < ((encH ++ (be4 b ++ encB)).take (bufSize - 4)).length := by
      rw [List.length_take]
      simp [length_be4]
      omega
    exact List.length_pos.mp hp
  have e5 : bufRead ⟨(encH ++ (be4 b ++ encB)).take (bufSize - 4),
        (gobWrite encH encB).drop bufSize⟩ h
      = (((encH ++ (be4 b ++ encB)).take (bufSize - 4)).take h,
         ⟨((encH ++ (be4 b ++ encB)).take (bufSize - 4)).drop h,
          (gobWrite encH encB).drop bufSize⟩) :=
    bufRead_buffered _ _ h hbuff1
  have e6 : ((encH ++ (be4 b ++ encB)).take (bufSize - 4)).take h = encH := by
    rw [List.take_take]
    have hmin : min h (bufSize - 4) = h := by omega
    rw [hmin, List.take_append_of_le_length (by rw [hh]), hh, List.take_length]
  have e7 : ((encH ++ (be4 b ++ encB)).take (bufSize - 4)).drop h
      = (be4 b ++ encB).take (bufSize - 4 - h) := by
    rw [List.drop_take]
    congr 1
    rw [hh, List.drop_left]
  have eframe1 : readFrame ⟨[], gobWrite encH encB⟩
      = some (encH, ⟨(be4 b ++ encB).take (bufSize - 4 - h),
          (gobWrite encH encB).drop bufSize⟩) := by
    rw [readFrame_eq _ _ _ efull1, de4_be4 _ hH, e5]
    simp only
    rw [e6, e7, hh]
    simp [Nat.sub_self]
  -- step 3: the four body-length bytes
  have hbuff2 : ((be4 b ++ encB).take (bufSize - 4 - h)) ≠ [] := by
    have hp : 0 < ((be4 b ++ encB).take (bufSize - 4 - h)).length := by
      rw [List.length_take]
      simp [length_be4]
      omega
    exact List.length_pos.mp hp
  have e9 : bufRead ⟨(be4 b ++ encB).take (bufSize - 4 - h),
        (gobWrite encH encB).drop bufSize⟩ 4
      = (((be4 b ++ encB).take (bufSize - 4 - h)).take 4,
         ⟨((be4 b ++ encB).take (bufSize - 4 - h)).drop 4,
          (gobWrite encH encB).drop bufSize⟩) :=
    bufRead_buffered _ _ 4 hbuff2
  have e10 : ((be4 b ++ encB).take (bufSize - 4 - h)).take 4 = be4 b := by
    rw [List.take_take]
    have hmin : min 4 (bufSize - 4 - h) = 4 := by omega
    rw [hmin, List.take_append_of_le_length (by rw [length_be4])]
    rw [show (4 : Nat) = (be4 b).length from (length_be4 b).symm,
      List.take_length]
  have e11 : ((be4 b ++ encB).take (bufSize - 4 - h)).drop 4
      = encB.take (bufSize - 8 - h) := by
    rw [List.drop_take]
    congr 1
    omega
  have efull2 : readFull 4 ⟨(be4 b ++ encB).take (bufSize - 4 - h),
        (gobWrite encH encB).drop bufSize⟩ 4
      = some (be4 b, ⟨encB.take (bufSize - 8 - h),
          (gobWrite encH encB).drop bufSize⟩) := by
    have hx : (bufRead ⟨(be4 b ++ encB).take (bufSize - 4 - h),
        (gobWrite encH encB).drop bufSize⟩ 4).1.length = 4 := by
      rw [e9]
      simp only
      rw [e10, length_be4]
    have := readFull_exact 3 3 _ hx
    rw [show (3 + 1 : Nat) = 4 from rfl] at this
    rw [this, e9]
    simp only
    rw [e10, e11]
  -- step 4: the truncated body frame
  have hbuff3 : (encB.take (bufSize - 8 - h)) ≠ [] := by
    have hp : 0 < (encB.take (bufSize - 8 - h)).length := by
      rw [List.length_take, ← hbb]
      omega
    exact List.length_pos.mp hp
  have e12 : bufRead ⟨encB.take (bufSize - 8 - h),
        (gobWrite encH encB).drop bufSize⟩ b
      = ((encB.take (bufSize - 8 - h)).take b,
         ⟨(encB.take (bufSize - 8 - h)).drop b,
          (gobWrite encH encB).drop bufSize⟩) :=
    bufRead_buffered _ _ b hbuff3
  have e13 : (encB.take (bufSize - 8 - h)).take b
      = encB.take (bufSize - 8 - h) := by
    rw [List.take_take]
    congr 1
    omega
  have e14 : ((encB.take (bufSize - 8 - h)).take b).length
      = bufSize - 8 - h := by
    rw [e13, List.length_take, ← hbb]
    omega
  have eframe2 : readFrame ⟨(be4 b ++ encB).take (bufSize - 4 - h),
        (gobWrite encH encB).drop bufSize⟩
      = some (encB.take (bufSize - 8 - h)
            ++ List.replicate (b - (bufSize - 8 - h)) 0,
          ⟨(encB.take (bufSize - 8 - h)).drop b,
           (gobWrite encH encB).drop bufSize⟩) := by
    rw [readFrame_eq _ _ _ efull2, de4_be4 _ hBn, e12]
    simp only
    rw [e14, e13]
  rw [readTwoFrames, eframe1]
  simp only
  rw [eframe2]

/-- C4: the round trip does hold while the whole stream fits in the 4096
byte `bufio` buffer (first conjunct), but a reply whose encoded frame
crosses the buffer boundary is corrupted: with a 2-byte encoded header and
a 5000-byte encoded body of ones, the frame handed to the body decoder is
the 4086 buffered bytes followed by 914 zero bytes from `make([]byte, 5000)`
— the single `bufio.Read` whose count `ReadBody` ignores cannot return the
rest — so the decoder does not receive the encoded body and the claimed
round trip fails for replies larger than the buffer. -/
theorem C4_code_bug :
    readTwoFrames (gobWrite [7, 7] [9, 9, 9]) = some ([7, 7], [9, 9, 9]) ∧
    readTwoFrames (gobWrite [7, 7] (List.replicate 5000 1))
      = some ([7, 7], List.replicate 4086 1 ++ List.replicate 914 0) ∧
    List.replicate 4086 (1 : Nat) ++ List.replicate 914 0
      ≠ List.replicate 5000 1 := by
  refine ⟨rfl, ?_, ?_⟩
  · have h := readTwoFrames_gobWrite_large [7, 7] (List.replicate 5000 1)
      (by decide) (by rw [List.length_replicate]; decide) (by decide)
      (by rw [List.length_replicate]; decide)
    have hl : ([7, 7] : List Nat).length = 2 := rfl
    rw [h, hl, List.take_replicate, List.length_replicate]
    norm_num [bufSize]
  · intro hcontra
    have h1 := congrArg (fun l => l[4086]?) hcontra
    simp only at h1
    rw [List.getElem?_append_right
      (show (List.replicate 4086 (1 : Nat)).length ≤ 4086 by
        rw [List.length_replicate])] at h1
    rw [List.length_replicate] at h1
    rw [List.getElem?_replicate, List.getElem?_replicate] at h1
    norm_num at h1

end MiniRpc
